import Mathlib

/-!
Verification of the console Ludo game (`ludo_console.py`): a shallow
embedding of the player model, the move rules (`can_enter`,
`move_possible`, `apply_move`), the setup routine and the relevant part
of the main turn loop, followed by theorems settling the specification
claims about them.
-/

namespace Ludo

/-- Embeds the module constant `TRACK_LEN = 57`. -/
def TRACK_LEN : Int := 57

/-- Embeds the `Player` class: `name`, `color`, `start_offset` from the
constructor arguments, `pos` initialised to `-1`, `finished` to `False`. -/
structure Player where
  name : String
  color : String
  start_offset : Int
  pos : Int
  finished : Bool
deriving DecidableEq, Repr

/-- Embeds `Player.__init__`: fields set from the arguments, `pos = -1`,
`finished = False`. -/
def Player.init (name color : String) (start_offset : Int) : Player :=
  { name := name, color := color, start_offset := start_offset,
    pos := -1, finished := false }

/-- Embeds `can_enter(roll, pos)`: `pos < 0 and roll == 6`. -/
def can_enter (roll pos : Int) : Bool :=
  decide (pos < 0) && decide (roll = 6)

/-- Embeds `move_possible(pos, roll)`: `False` when `pos < 0`, otherwise
`(pos + roll) <= TRACK_LEN`. -/
def move_possible (pos roll : Int) : Bool :=
  if pos < 0 then false
  else decide (pos + roll ≤ TRACK_LEN)

/-- Embeds `apply_move(player, roll)` as a pure state transformer: the
Python function mutates `player` in place, this returns the updated
player. -/
def apply_move (player : Player) (roll : Int) : Player :=
  if player.finished then player
  else if can_enter roll player.pos then { player with pos := 0 }
  else if move_possible player.pos roll then
    let moved := { player with pos := player.pos + roll }
    if moved.pos = TRACK_LEN then { moved with finished := true } else moved
  else player

/-- Embeds `everyone_finished(players)`: `all(p.finished for p in players)`. -/
def everyone_finished (players : List Player) : Bool :=
  players.all (fun p => p.finished)

/-- Embeds `next_index(current, n)`: `(current + 1) % n`. -/
def next_index (current n : Nat) : Nat :=
  (current + 1) % n

/-- Embeds the `default_players` table of `setup_players`. -/
def default_players : List (String × String × Int) :=
  [("Red", "RED", 0), ("Blue", "BLUE", 14),
   ("Green", "GREEN", 28), ("Yellow", "YELLOW", 42)]

/-- Embeds `setup_players()`. The interactive `input` call is modelled by
an `Option Int` argument: `none` stands for an empty line or a line that
raises `ValueError` in `int(raw)` (both default to `n = 2` with a printed
message), `some k` for a line parsing to the integer `k`. A `k` outside
`[2, 4]` is replaced by `2` after printing "Invalid count; using 2
players." — no exception is raised. -/
def setup_players (raw : Option Int) : List Player :=
  let n : Int :=
    match raw with
    | none => 2
    | some k => if k < 2 ∨ 4 < k then 2 else k
  (default_players.take n.toNat).map (fun t => Player.init t.1 t.2.1 t.2.2)

/-- Embeds one iteration of the `main` loop (lines 119-155) for a current
player that is not finished (finished players are skipped earlier without
rolling), given the dice roll. Mirrors the branch structure of lines
122-139: in base, `apply_move` is called only when `can_enter` holds; on
track, only when `move_possible` holds; `winner_declared` is set exactly
when an on-track move leaves the player finished. The result is the
updated player, the next value of the turn index (line 155, reached only
when the game does not end at line 146 — the end check never changes
player state or the turn index), and whether the extra turn of lines
141-144 was granted (`continue` taken, turn index kept). -/
def main_step (current : Player) (roll : Int) (turn n : Nat) :
    Player × Nat × Bool :=
  let step : Player × Bool :=
    if current.pos < 0 then
      if can_enter roll current.pos then (apply_move current roll, false)
      else (current, false)
    else
      if move_possible current.pos roll then
        let moved := apply_move current roll
        (moved, moved.finished)
      else (current, false)
  let player := step.1
  let winner_declared := step.2
  let extra := !winner_declared && decide (roll = 6) && !player.finished
  if extra then (player, turn, true)
  else (player, next_index turn n, false)

/-- Folds a sequence of rolls through `apply_move`, modelling repeated
calls on the same player. -/
def run_moves (p : Player) (rolls : List Int) : Player :=
  rolls.foldl apply_move p

end Ludo

namespace Ludo

/-- C6: `can_enter(roll, pos)` is true iff `pos < 0` and `roll = 6`; in
particular `can_enter 6 (-1) = true`, `can_enter r (-1) = false` for
`r ≠ 6`, and `can_enter r p = false` for `p ≥ 0`. -/
theorem can_enter_iff :
    (∀ roll pos : Int, can_enter roll pos = true ↔ pos < 0 ∧ roll = 6) ∧
    can_enter 6 (-1) = true ∧
    (∀ r : Int, r ≠ 6 → can_enter r (-1) = false) ∧
    (∀ r pos : Int, 0 ≤ pos → can_enter r pos = false) := by
  refine ⟨fun roll pos => ?_, by decide, fun r hr => ?_, fun r pos hpos => ?_⟩
  · simp [can_enter]
  · simp [can_enter, hr]
  · simp [can_enter]
    omega

/-- Witness for `can_enter_iff` at the concrete roll 5 from base. -/
theorem can_enter_iff_witness : can_enter 5 (-1) = false :=
  can_enter_iff.2.2.1 5 (by decide)

/-- C5: `move_possible pos roll` is true iff `0 ≤ pos` and
`pos + roll ≤ 57`; in particular `move_possible 52 5 = true`,
`move_possible 52 6 = false`, and a player at position 55 rolling 3 is
blocked with position unchanged at 55. -/
theorem move_possible_iff :
    (∀ pos roll : Int,
        move_possible pos roll = true ↔ 0 ≤ pos ∧ pos + roll ≤ TRACK_LEN) ∧
    move_possible 52 5 = true ∧ move_possible 52 6 = false ∧
    (apply_move (Player.mk "Red" "RED" 0 55 false) 3).pos = 55 := by
  refine ⟨fun pos roll => ?_, by decide, by decide, by decide⟩
  simp only [move_possible, TRACK_LEN]
  split
  · simp
    omega
  · simp
    omega

/-- Witness for `move_possible_iff` at the concrete position 3, roll 4. -/
theorem move_possible_iff_witness : move_possible 3 4 = true :=
  (move_possible_iff.1 3 4).mpr (by decide)

/-- C10: for every position and roll, `can_enter` and `move_possible` are
never both true: entering and advancing are mutually exclusive. -/
theorem enter_advance_exclusive (pos roll : Int) :
    (can_enter roll pos && move_possible pos roll) = false := by
  by_cases h : pos < 0 <;> simp [can_enter, move_possible, h]

/-- C9: `apply_move` changes at most `pos` and `finished`: the `name`,
`color` and `start_offset` fields are preserved by every call. -/
theorem apply_move_frame (p : Player) (roll : Int) :
    (apply_move p roll).name = p.name ∧
    (apply_move p roll).color = p.color ∧
    (apply_move p roll).start_offset = p.start_offset := by
  simp only [apply_move]
  split_ifs <;> simp

/-- C7: once `finished` is set, `apply_move` leaves both `pos` and
`finished` unchanged, whatever the roll: finishing is permanent. -/
theorem apply_move_finished_noop (p : Player) (roll : Int)
    (h : p.finished = true) :
    (apply_move p roll).pos = p.pos ∧
    (apply_move p roll).finished = p.finished := by
  simp [apply_move, h]

/-- Witness for `apply_move_finished_noop`: a finished player at 57 is
unchanged by a roll of 6. -/
theorem apply_move_finished_noop_witness :
    (Player.mk "Red" "RED" 0 57 true).finished = true ∧
    (apply_move (Player.mk "Red" "RED" 0 57 true) 6).pos =
      (Player.mk "Red" "RED" 0 57 true).pos ∧
    (apply_move (Player.mk "Red" "RED" 0 57 true) 6).finished =
      (Player.mk "Red" "RED" 0 57 true).finished :=
  ⟨rfl, apply_move_finished_noop (Player.mk "Red" "RED" 0 57 true) 6 rfl⟩

/-- C1: `apply_move` behaves exactly as specified: no-op when `finished`;
else, when `can_enter`, position becomes 0 and nothing else changes;
else, when `move_possible`, position increases by the roll and `finished`
becomes true exactly when the new position equals `TRACK_LEN = 57`; else
no state changes at all. -/
theorem apply_move_spec (p : Player) (roll : Int) :
    apply_move p roll =
      if p.finished then p
      else if can_enter roll p.pos then { p with pos := 0 }
      else if move_possible p.pos roll then
        { p with pos := p.pos + roll,
                 finished := decide (p.pos + roll = TRACK_LEN) }
      else p := by
  simp only [apply_move]
  split_ifs with h1 h2 h3 h4 <;> simp_all

/-- C8: with a die roll (a value in [1,6]), `apply_move` never decreases
the position; hence position is non-decreasing across any sequence of
calls. -/
theorem apply_move_pos_monotone (p : Player) (roll : Int)
    (h1 : 1 ≤ roll) (h2 : roll ≤ 6) :
    p.pos ≤ (apply_move p roll).pos := by
  simp only [apply_move]
  split_ifs with hf he hm hfin <;>
    simp_all [can_enter, move_possible] <;> omega

/-- Witness for `apply_move_pos_monotone`: a player at 10 rolling 3. -/
theorem apply_move_pos_monotone_witness :
    (1 : Int) ≤ 3 ∧ (3 : Int) ≤ 6 ∧
    (Player.mk "Red" "RED" 0 10 false).pos ≤
      (apply_move (Player.mk "Red" "RED" 0 10 false) 3).pos :=
  ⟨by decide, by decide,
    apply_move_pos_monotone (Player.mk "Red" "RED" 0 10 false) 3
      (by decide) (by decide)⟩

/-- C2 counterexample: starting from the freshly constructed Red player
(`pos = -1`, not finished), the roll sequence 6,6,6,6,6,6,6,6,6,6,3 —
every roll in [1,6] — drives `pos` to exactly 57: `apply_move` stores
`TRACK_LEN` itself in `pos` on the finishing move, so `pos` does not stay
inside {-1} ∪ [0,56]. -/
theorem run_moves_reaches_57 :
    (∀ r ∈ ([6, 6, 6, 6, 6, 6, 6, 6, 6, 6, 3] : List Int), 1 ≤ r ∧ r ≤ 6) ∧
    (Player.init "Red" "RED" 0).pos = -1 ∧
    (Player.init "Red" "RED" 0).finished = false ∧
    (run_moves (Player.init "Red" "RED" 0) [6, 6, 6, 6, 6, 6, 6, 6, 6, 6, 3]).pos
      = TRACK_LEN := by
  exact ⟨by decide, rfl, rfl, by decide⟩

/-- Single-step preservation of the position invariant: position stays in
[-1, 57] and equals 57 only once `finished` is set. -/
lemma apply_move_invariant (p : Player) (roll : Int) (hr : 1 ≤ roll)
    (hinv : (-1 ≤ p.pos ∧ p.pos ≤ TRACK_LEN) ∧
            (p.pos = TRACK_LEN → p.finished = true)) :
    (-1 ≤ (apply_move p roll).pos ∧ (apply_move p roll).pos ≤ TRACK_LEN) ∧
      ((apply_move p roll).pos = TRACK_LEN →
        (apply_move p roll).finished = true) := by
  simp only [apply_move]
  split_ifs with hf he hm hfin <;>
    (simp_all [can_enter, move_possible, TRACK_LEN]; try omega)

/-- The invariant of `apply_move_invariant` is preserved by any sequence
of die rolls. -/
lemma run_moves_invariant (rolls : List Int) (p : Player)
    (hr : ∀ r ∈ rolls, 1 ≤ r ∧ r ≤ 6)
    (hinv : (-1 ≤ p.pos ∧ p.pos ≤ TRACK_LEN) ∧
            (p.pos = TRACK_LEN → p.finished = true)) :
    (-1 ≤ (run_moves p rolls).pos ∧ (run_moves p rolls).pos ≤ TRACK_LEN) ∧
      ((run_moves p rolls).pos = TRACK_LEN →
        (run_moves p rolls).finished = true) := by
  induction rolls generalizing p with
  | nil => exact hinv
  | cons r rs ih =>
      have hstep := apply_move_invariant p r (hr r (by simp)).1 hinv
      have htail : ∀ x ∈ rs, 1 ≤ x ∧ x ≤ 6 := fun x hx => hr x (by simp [hx])
      simpa [run_moves, List.foldl] using ih (apply_move p r) htail hstep

/-- C2 amended: from a freshly constructed player, after any sequence of
die rolls in [1,6], the position is in {-1} ∪ [0, TRACK_LEN]; the value
57 = `TRACK_LEN` can be stored, and only on a player whose `finished`
flag is set. -/
theorem run_moves_pos_range (p : Player) (rolls : List Int)
    (hp : p.pos = -1) (hr : ∀ r ∈ rolls, 1 ≤ r ∧ r ≤ 6) :
    ((run_moves p rolls).pos = -1 ∨
      (0 ≤ (run_moves p rolls).pos ∧ (run_moves p rolls).pos ≤ TRACK_LEN)) ∧
    ((run_moves p rolls).pos = TRACK_LEN →
      (run_moves p rolls).finished = true) := by
  have h := run_moves_invariant rolls p hr
    ⟨⟨by simp [hp], by simp [hp, TRACK_LEN]⟩, by simp [hp, TRACK_LEN]⟩
  exact ⟨by omega, h.2⟩

/-- Witness for `run_moves_pos_range`: the fresh Red player after rolls
6 then 3 (enter, then advance to 3). -/
theorem run_moves_pos_range_witness :
    ((run_moves (Player.init "Red" "RED" 0) [6, 3]).pos = -1 ∨
      (0 ≤ (run_moves (Player.init "Red" "RED" 0) [6, 3]).pos ∧
        (run_moves (Player.init "Red" "RED" 0) [6, 3]).pos ≤ TRACK_LEN)) ∧
    ((run_moves (Player.init "Red" "RED" 0) [6, 3]).pos = TRACK_LEN →
      (run_moves (Player.init "Red" "RED" 0) [6, 3]).finished = true) :=
  run_moves_pos_range (Player.init "Red" "RED" 0) [6, 3] rfl (by decide)

/-- A non-finished player at position 52: rolling a 6 is blocked
(52 + 6 = 58 overshoots). -/
def blocked_six_player : Player := Player.mk "Red" "RED" 0 52 false

/-- C3 counterexample: at position 52 a roll of 6 can neither enter nor
advance — `apply_move` leaves the state untouched — yet the turn loop
still grants the extra turn (turn index kept at 0): a blocked 6 DOES
grant an extra turn in the code. -/
theorem blocked_six_extra_turn :
    can_enter 6 blocked_six_player.pos = false ∧
    move_possible blocked_six_player.pos 6 = false ∧
    apply_move blocked_six_player 6 = blocked_six_player ∧
    (main_step blocked_six_player 6 0 2).2.2 = true ∧
    (main_step blocked_six_player 6 0 2).2.1 = 0 := by
  exact ⟨rfl, rfl, by decide, rfl, rfl⟩

/-- Advancing the turn index never returns the same index when there are
at least two players. -/
lemma next_index_ne (turn n : Nat) (ht : turn < n) (hn : 2 ≤ n) :
    next_index turn n ≠ turn := by
  unfold next_index
  rcases Nat.lt_or_ge (turn + 1) n with h | h
  · rw [Nat.mod_eq_of_lt h]
    omega
  · have hte : turn + 1 = n := by omega
    rw [hte, Nat.mod_self]
    omega

/-- C3 amended: in the turn loop, for a non-finished current player, the
extra turn is granted — and the turn index left unchanged — exactly when
the roll is 6 and the player is not finished after the move, whether or
not the move itself succeeded; a 6 that finishes grants no extra turn. -/
theorem extra_turn_iff (p : Player) (roll : Int) (turn n : Nat)
    (hf : p.finished = false) (ht : turn < n) (hn : 2 ≤ n) :
    ((main_step p roll turn n).2.2 = true ↔
      roll = 6 ∧ (apply_move p roll).finished = false) ∧
    ((main_step p roll turn n).2.1 = turn ↔
      (main_step p roll turn n).2.2 = true) := by
  have hne := next_index_ne turn n ht hn
  simp only [main_step, apply_move, hf]
  by_cases hpos : p.pos < 0 <;>
    by_cases he : can_enter roll p.pos = true <;>
    by_cases hm : move_possible p.pos roll = true <;>
    simp_all [can_enter, move_possible] <;>
    split_ifs <;>
    simp_all

/-- Witness for `extra_turn_iff`: the fresh Red player entering on a 6 in
a two-player game keeps the turn. -/
theorem extra_turn_iff_witness :
    (((main_step (Player.init "Red" "RED" 0) 6 0 2).2.2 = true ↔
      (6 : Int) = 6 ∧ (apply_move (Player.init "Red" "RED" 0) 6).finished = false) ∧
     ((main_step (Player.init "Red" "RED" 0) 6 0 2).2.1 = 0 ↔
      (main_step (Player.init "Red" "RED" 0) 6 0 2).2.2 = true)) :=
  extra_turn_iff (Player.init "Red" "RED" 0) 6 0 2 rfl (by decide) (by decide)

/-- C4 counterexample: a requested player count of 5 (outside [2,4]) does
NOT fail: `setup_players` silently falls back to the 2-player default and
returns the Red and Blue players, the same result as a count of 2. -/
theorem setup_players_five_silent :
    (setup_players (some 5)).length = 2 ∧
    setup_players (some 5) = setup_players (some 2) ∧
    setup_players (some 5) =
      [Player.init "Red" "RED" 0, Player.init "Blue" "BLUE" 14] := by
  exact ⟨rfl, by decide, by decide⟩

/-- C4 amended: a player count outside [2,4] is recovered silently — the
count is replaced by the default 2 and construction proceeds with the two
default players; no error is surfaced. -/
theorem setup_players_invalid_default (k : Int) (h : k < 2 ∨ 4 < k) :
    setup_players (some k) = setup_players (some 2) ∧
    (setup_players (some k)).length = 2 := by
  have hk : setup_players (some k) = setup_players (some 2) := by
    simp only [setup_players]
    rw [if_pos h]
    norm_num
  exact ⟨hk, by rw [hk]; rfl⟩

/-- Witness for `setup_players_invalid_default` at the invalid count 7. -/
theorem setup_players_invalid_default_witness :
    setup_players (some 7) = setup_players (some 2) ∧
    (setup_players (some 7)).length = 2 :=
  setup_players_invalid_default 7 (by decide)

end Ludo
